import Mathlib

/-!
# Verification of the ai-agents-course corpus verifier

Shallow embedding of the repository's consistency verifier (the corpus
loader, reference index, validation passes, report aggregator and driver
described in `spec.md`) together with the two pieces of DOM glue that ship
under `src/` (`force-download.js` and the reading-progress script).

The verifier itself (`check_references.py`, invoked by the repository's
documentation) is not part of the source tree that was provided, so its
data model and passes are modelled from the specification; each such
definition says so in its doc comment.  The force-download and
reading-progress definitions are translated directly from the JavaScript
sources.
-/

namespace CourseVerifier

/-- Severity of a finding: `error` blocks the build, `warning` and `info`
do not. -/
inductive Severity where
  | error
  | warning
  | info
deriving DecidableEq, Repr

/-- Numeric rank used for the report sort order: Error before Warning
before Info. -/
def Severity.rank : Severity → Nat
  | .error => 0
  | .warning => 1
  | .info => 2

/-- Modelled from the spec: a `Finding` is an immutable value object with a
severity, a stable rule identifier, the document/asset and position it
concerns, and a human-readable message. -/
structure Finding where
  severity : Severity
  ruleId : String
  file : String
  pos : Nat
  message : String
deriving DecidableEq, Repr

/-- Sort key of a finding: severity rank, then document/asset identifier,
then position within the file, with rule id and message as final
tie-breaks so that the order is total on findings. -/
def findingKey (f : Finding) : Nat ×ₗ (String ×ₗ (Nat ×ₗ (String ×ₗ String))) :=
  toLex (f.severity.rank, toLex (f.file, toLex (f.pos, toLex (f.ruleId, f.message))))

/-- The report order on findings (lexicographic on `findingKey`). -/
def keyLErel (a b : Finding) : Prop := findingKey a ≤ findingKey b

instance : DecidableRel keyLErel :=
  fun a b => inferInstanceAs (Decidable (findingKey a ≤ findingKey b))

instance : IsAntisymm Finding keyLErel := by
  refine ⟨fun a b h1 h2 => ?_⟩
  have h := le_antisymm h1 h2
  have h' := congrArg ofLex h
  simp only [findingKey, ofLex_toLex] at h'
  obtain ⟨h1', h2'⟩ := Prod.mk.injEq .. ▸ h'
  have h2'' := congrArg ofLex h2'
  simp only [ofLex_toLex] at h2''
  obtain ⟨h3, h4⟩ := Prod.mk.injEq .. ▸ h2''
  have h4' := congrArg ofLex h4
  simp only [ofLex_toLex] at h4'
  obtain ⟨h5, h6⟩ := Prod.mk.injEq .. ▸ h4'
  have h6' := congrArg ofLex h6
  simp only [ofLex_toLex] at h6'
  obtain ⟨h7, h8⟩ := Prod.mk.injEq .. ▸ h6'
  have hsev : a.severity = b.severity := by
    cases ha : a.severity <;> cases hb : b.severity <;>
      first | rfl | (rw [ha, hb] at h1'; simp [Severity.rank] at h1')
  cases a; cases b
  simp only [Finding.mk.injEq]
  exact ⟨hsev, h7, h3, h5, h8⟩

instance : IsTotal Finding keyLErel :=
  ⟨fun a b => le_total (findingKey a) (findingKey b)⟩

instance : IsTrans Finding keyLErel :=
  ⟨fun _ _ _ h1 h2 => le_trans h1 h2⟩

/-- Modelled from the spec: the Report Aggregator merges pass outputs,
removes exact duplicate findings, and sorts deterministically by severity,
then document/asset identifier, then position. -/
def aggregate (fs : List Finding) : List Finding :=
  List.insertionSort keyLErel fs.dedup

/-- One rendered report line: rule id, file, location and message,
prefixed by the severity. -/
def renderFinding (f : Finding) : String :=
  (match f.severity with
    | .error => "Error"
    | .warning => "Warning"
    | .info => "Info")
  ++ ": " ++ f.ruleId ++ " " ++ f.file ++ ":" ++ toString f.pos ++ " " ++ f.message

/-- Modelled from the spec: the human-readable report, a deterministic
rendering of the aggregated findings. -/
def renderReport (fs : List Finding) : String :=
  String.intercalate "\n" ((aggregate fs).map renderFinding)

/-- Modelled from the spec: the TOC/Summary Sync finding for one
identifier, naming the identifier and which side it is missing from. -/
def mkTocDrift (ident side : String) : Finding :=
  ⟨.error, "TocDrift", ident, 0, "identifier " ++ ident ++ " missing from " ++ side⟩

/-- Modelled from the spec (the verifier script is not under the provided
sources): the TOC/Summary Sync pass.  Any identifier present in one
ordered sequence but not the other is an `Error: TocDrift`. -/
def tocDriftFindings (toc summaryIds : List String) : List Finding :=
  (toc.filter fun i => decide (i ∉ summaryIds)).map (fun i => mkTocDrift i "summary table")
    ++ (summaryIds.filter fun i => decide (i ∉ toc)).map (fun i => mkTocDrift i "toc")

/-- Ordinal rendering for chapters and projects. -/
def natOrd (n : Nat) : String := toString n

/-- Ordinal rendering for appendices: 1 ↦ "A", 2 ↦ "B", … -/
def letterOrd (n : Nat) : String := String.mk [Char.ofNat (64 + n)]

/-- Modelled from the spec: the `SequenceGap` finding naming the expected
versus found ordinal of a document group. -/
def mkSequenceGap (render : Nat → String) (group : String) (expected found : Nat) : Finding :=
  ⟨.error, "SequenceGap", group, found,
    "expected " ++ render expected ++ ", found " ++ render found⟩

/-- Modelled from the spec: the Naming Sequence pass over the ordinals of
one document group.  Ordinals must be contiguous starting at the group's
origin; each violation yields one `Error: SequenceGap` naming the expected
versus found ordinal. -/
def sequenceGapFindings (render : Nat → String) (group : String) :
    Nat → List Nat → List Finding
  | _, [] => []
  | expected, found :: rest =>
    if found = expected then sequenceGapFindings render group (expected + 1) rest
    else mkSequenceGap render group expected found
      :: sequenceGapFindings render group (found + 1) rest

/-- Naming Sequence pass for numeric-prefixed chapters (origin 1). -/
def chapterPass (ords : List Nat) : List Finding :=
  sequenceGapFindings natOrd "chapters" 1 ords

/-- Naming Sequence pass for letter-suffixed appendices (origin 'A'). -/
def appendixPass (ords : List Nat) : List Finding :=
  sequenceGapFindings letterOrd "appendices" 1 ords

/-- Naming Sequence pass for numbered projects (origin 1). -/
def projectPass (ords : List Nat) : List Finding :=
  sequenceGapFindings natOrd "projects" 1 ords

/-- Modelled from the spec: one outbound relative reference extracted from
a document's blocks, paired with its source document and position. -/
structure Ref where
  doc : String
  pos : Nat
  target : String
deriving DecidableEq, Repr

/-- The `MissingReference` finding for one unresolved reference: it names
the missing target and carries the referencing document and position. -/
def mkMissingRef (r : Ref) : Finding :=
  ⟨.error, "MissingReference", r.doc, r.pos, "missing target " ++ r.target⟩

/-- Modelled from the spec: the Reference Existence pass.  Every relative
reference must resolve in the index of asset paths; else
`Error: MissingReference`. -/
def missingRefFindings (assetPaths : List String) (refs : List Ref) : List Finding :=
  (refs.filter fun r => decide (r.target ∉ assetPaths)).map mkMissingRef

/-- Whitespace test used by line-boundary normalization. -/
def isWs (c : Char) : Bool := c == ' ' || c == '\t' || c == '\r'

/-- Trim the leading and trailing whitespace of one line (a line is a list
of characters). -/
def trimLine (l : List Char) : List Char :=
  ((l.dropWhile isWs).reverse.dropWhile isWs).reverse

/-- Modelled from the spec: whitespace normalization at line boundaries
only — each line is trimmed, interior whitespace is untouched. -/
def normalizeLines (t : List (List Char)) : List (List Char) := t.map trimLine

/-- Modelled from the spec: a documented-prompt `CodeSample` block paired
with the referenced asset file's functional-node prompt parameter, both
split into lines by the loader. -/
structure PromptPair where
  docId : String
  pos : Nat
  assetPath : String
  blockText : List (List Char)
  assetText : List (List Char)
deriving DecidableEq

/-- The `PromptDrift` finding for one pair: severity Warning, located at
the documenting block, with the asset path in the message so that both
locations are referenced. -/
def mkPromptDrift (p : PromptPair) : Finding :=
  ⟨.warning, "PromptDrift", p.docId, p.pos,
    "documented prompt in " ++ p.docId ++ " drifts from asset " ++ p.assetPath⟩

/-- Modelled from the spec: the Prompt Consistency pass on one pair —
compare verbatim after whitespace normalization at line boundaries only;
mismatch is `Warning: PromptDrift` (never an Error). -/
def promptPairFindings (p : PromptPair) : List Finding :=
  if normalizeLines p.blockText = normalizeLines p.assetText then []
  else [mkPromptDrift p]

/-- The Prompt Consistency pass over all documented prompts. -/
def promptFindings (ps : List PromptPair) : List Finding :=
  (ps.map promptPairFindings).flatten

/-- A word of a prompt line: nonempty and free of whitespace. -/
def GoodWord (w : List Char) : Prop := w ≠ [] ∧ ∀ c ∈ w, isWs c = false

/-- A line given as its list of words. -/
def GoodLine (ws : List (List Char)) : Prop := ∀ w ∈ ws, GoodWord w

/-- Render a list of words into a line, separating words by single
spaces. -/
def renderLine : List (List Char) → List Char
  | [] => []
  | [w] => w
  | w :: x :: xs => w ++ ' ' :: renderLine (x :: xs)

/-- The part of a rendered line that follows its first word. -/
def sepTail : List (List Char) → List Char
  | [] => []
  | ws => ' ' :: renderLine ws

/-- Slug transformation of one character: a space becomes a hyphen, any
other character is lower-cased. -/
def slugChar (c : Char) : Char := if c = ' ' then '-' else c.toLower

/-- Heading slug: lower-case the heading text and replace spaces with
hyphens. -/
def slugify (s : String) : String := String.mk (s.data.map slugChar)

/-- Split a character list at its first `#`, returning the part after it
when one exists. -/
def splitAtHash : List Char → Option (List Char)
  | [] => none
  | c :: cs => if c = '#' then some cs else splitAtHash cs

/-- The anchor fragment of a URL, when present. -/
def fragmentOf (url : String) : Option String :=
  (splitAtHash url.data).map String.mk

/-- Modelled from the spec: the designated first-annotation node's
documentation link of one asset file, with the document it refers to. -/
structure StickyNote where
  assetPath : String
  url : String
  refDocId : String
deriving DecidableEq

/-- `BrokenAnchor` finding: the documentation link does not match the
corpus's publish-domain pattern. -/
def mkBadDomain (sn : StickyNote) : Finding :=
  ⟨.error, "BrokenAnchor", sn.assetPath, 0,
    "documentation link " ++ sn.url ++ " does not match the publish domain"⟩

/-- `BrokenAnchor` finding: the anchor fragment matches no heading slug of
the referenced document. -/
def mkBadFragment (sn : StickyNote) (frag : String) : Finding :=
  ⟨.error, "BrokenAnchor", sn.assetPath, 0,
    "anchor " ++ frag ++ " does not match any heading slug of " ++ sn.refDocId⟩

/-- Modelled from the spec: the Sticky-Note/Anchor Validation pass on one
asset file.  The documentation-link URL must match the publish-domain
pattern, and an anchor fragment, when present, must equal a heading slug
of the referenced document; any mismatch is `Error: BrokenAnchor`. -/
def anchorFindings (publishDomain : String) (headings : List String)
    (sn : StickyNote) : List Finding :=
  if publishDomain.data.isPrefixOf sn.url.data then
    match fragmentOf sn.url with
    | none => []
    | some frag =>
      if frag ∈ headings.map slugify then [] else [mkBadFragment sn frag]
  else [mkBadDomain sn]

/-- Modelled from the spec: one on-disk file of the corpus, with the fact
of whether it parses. -/
structure RawFile where
  name : String
  wellFormed : Bool
deriving DecidableEq

/-- The index of successfully loaded files. -/
def loadedPaths (files : List RawFile) : List String :=
  (files.filter fun f => f.wellFormed).map (fun f => f.name)

/-- The load errors recorded by the Corpus Loader. -/
def loadErrorsOf (files : List RawFile) : List String :=
  (files.filter fun f => !f.wellFormed).map (fun f => f.name)

/-- The Error-severity line a load error is rendered as. -/
def mkLoadError (name : String) : Finding :=
  ⟨.error, "LoadError", name, 0,
    "file failed to parse and was excluded from the index"⟩

/-- Load errors surfaced as part of the final report. -/
def loadErrorFindings (errs : List String) : List Finding := errs.map mkLoadError

/-- Modelled from the spec: the loaded corpus handed to the validation
passes — the asset index, extracted references, TOC and summary identifier
sequences, per-group ordinals, documented prompts, sticky notes (each with
the heading texts of its referenced document), and the recorded load
errors. -/
structure Corpus where
  assetPaths : List String
  refs : List Ref
  toc : List String
  summaryIds : List String
  chapterOrds : List Nat
  appendixOrds : List Nat
  projectOrds : List Nat
  promptPairs : List PromptPair
  publishDomain : String
  stickyNotes : List (StickyNote × List String)
  loadErrors : List String

/-- Modelled from the spec: run every default validation pass on the
(possibly partial) corpus and surface the load errors with the pass
findings.  Every pass is a total function, so no pass can crash on a
partial corpus. -/
def runPasses (c : Corpus) : List Finding :=
  missingRefFindings c.assetPaths c.refs
    ++ tocDriftFindings c.toc c.summaryIds
    ++ chapterPass c.chapterOrds
    ++ appendixPass c.appendixOrds
    ++ projectPass c.projectOrds
    ++ promptFindings c.promptPairs
    ++ (c.stickyNotes.map fun p => anchorFindings c.publishDomain p.2 p.1).flatten
    ++ loadErrorFindings c.loadErrors

/-- The aggregated report of one run. -/
def report (c : Corpus) : List Finding := aggregate (runPasses c)

/-- Number of Error-severity findings. -/
def errorCount (fs : List Finding) : Nat :=
  (fs.filter fun f => decide (f.severity = .error)).length

/-- Number of Warning-severity findings. -/
def warningCount (fs : List Finding) : Nat :=
  (fs.filter fun f => decide (f.severity = .warning)).length

/-- Modelled from the spec: the Driver's exit status.  `none` stands for a
corpus that failed to load at all (root path missing or unreadable). -/
def exitCode : Option Corpus → Nat
  | none => 2
  | some c => if 0 < errorCount (report c) then 1 else 0

/-- Modelled from the spec: the Corpus Loader builds the corpus from the
raw files, recording parse failures as load errors, plus the parts of the
corpus the other passes consume. -/
def loadCorpus (files : List RawFile) (refs : List Ref) (toc summaryIds : List String)
    (ch ap pr : List Nat) (pps : List PromptPair) (pd : String)
    (sns : List (StickyNote × List String)) : Corpus :=
  ⟨loadedPaths files, refs, toc, summaryIds, ch, ap, pr, pps, pd, sns,
    loadErrorsOf files⟩

/-- A dropdown menu item of the rendered page, identified by its CSS
classes (from `force-download.js`). -/
structure MenuItem where
  cssClasses : List String
deriving DecidableEq

/-- The `.html` download entry appended by `addDownloadOptions`. -/
def downloadHtmlBtn : MenuItem :=
  ⟨["btn", "btn-sm", "dropdown-item", "download-html-btn"]⟩

/-- The `.md` download entry appended by `addDownloadOptions`. -/
def downloadMdBtn : MenuItem :=
  ⟨["btn", "btn-sm", "dropdown-item", "download-md-btn"]⟩

/-- Whether the dropdown already holds a `.download-html-btn` entry (the
querySelector test of `addDownloadOptions`). -/
def hasHtmlBtn (items : List MenuItem) : Bool :=
  items.any fun it => it.cssClasses.contains "download-html-btn"

/-- From `force-download.js`: `addDownloadOptions` returns early when the
dropdown is absent or already holds a `.download-html-btn` entry, and
otherwise appends the `.html` and `.md` entries. -/
def addDownloadOptions : Option (List MenuItem) → Option (List MenuItem)
  | none => none
  | some items =>
    if hasHtmlBtn items then some items
    else some (items ++ [downloadHtmlBtn, downloadMdBtn])

/-- The page state seen by `force-download.js`: the
`window._forceDownloadInitialized` guard and the download dropdown (absent
when the page has none). -/
structure PageState where
  forceDownloadInitialized : Bool
  dropdownMenu : Option (List MenuItem)
deriving DecidableEq

/-- From `force-download.js`: the IIFE returns immediately when the guard
is set, and otherwise sets the guard and adds the download options. -/
def runForceDownloadScript (s : PageState) : PageState :=
  if s.forceDownloadInitialized then s
  else { forceDownloadInitialized := true
         dropdownMenu := addDownloadOptions s.dropdownMenu }

/-- From the reading-progress script: `docHeight = scrollHeight -
innerHeight; progress = docHeight > 0 ? (scrollTop / docHeight) * 100 :
0`. -/
def updateProgress (scrollTop scrollHeight innerHeight : ℚ) : ℚ :=
  let docHeight := scrollHeight - innerHeight
  if 0 < docHeight then scrollTop / docHeight * 100 else 0

theorem aggregate_perm_invariant {l l' : List Finding} (h : l.Perm l') :
    aggregate l = aggregate l' := by
  have hs1 := List.sorted_insertionSort keyLErel l.dedup
  have hs2 := List.sorted_insertionSort keyLErel l'.dedup
  have hp : (List.insertionSort keyLErel l.dedup).Perm
      (List.insertionSort keyLErel l'.dedup) :=
    ((List.perm_insertionSort keyLErel l.dedup).trans h.dedup).trans
      (List.perm_insertionSort keyLErel l'.dedup).symm
  exact List.eq_of_perm_of_sorted hp hs1 hs2

theorem mem_aggregate {f : Finding} {l : List Finding} :
    f ∈ aggregate l ↔ f ∈ l := by
  unfold aggregate
  rw [(List.perm_insertionSort keyLErel l.dedup).mem_iff, List.mem_dedup]

theorem filter_not_mem_eq_nil {α β : Type} [DecidableEq β] (f : α → β)
    (l : List α) (L : List β) (h : ∀ a ∈ l, f a ∈ L) :
    (l.filter fun a => decide (f a ∉ L)) = [] := by
  induction l with
  | nil => rfl
  | cons a l ih =>
    have ha : f a ∈ L := h a (by simp)
    simp only [List.filter_cons, decide_eq_true_eq]
    rw [if_neg (by simp [ha])]
    exact ih fun b hb => h b (by simp [hb])

theorem str_append_cancel_left (s : String) {a b : String}
    (h : s ++ a = s ++ b) : a = b := by
  have hd := congrArg String.data h
  rw [String.data_append, String.data_append] at hd
  have := List.append_cancel_left hd
  cases a; cases b; exact congrArg String.mk this

/-- C3: for every TocConfig and SummaryTable whose ordered identifier
sequences are equal, the TOC/Summary Sync pass produces zero `TocDrift`
findings; and for a pair differing by exactly one extra identifier on
either side, the pass produces exactly one Error-severity `TocDrift`
finding naming that identifier and the side it is missing from. -/
theorem tocSummarySync :
    (∀ ids : List String, tocDriftFindings ids ids = [])
    ∧ (∀ (l₁ l₂ : List String) (x : String), x ∉ l₁ ++ l₂ →
        tocDriftFindings (l₁ ++ x :: l₂) (l₁ ++ l₂) = [mkTocDrift x "summary table"])
    ∧ (∀ (l₁ l₂ : List String) (x : String), x ∉ l₁ ++ l₂ →
        tocDriftFindings (l₁ ++ l₂) (l₁ ++ x :: l₂) = [mkTocDrift x "toc"])
    ∧ (∀ toc sids f, f ∈ tocDriftFindings toc sids →
        f.severity = .error ∧ f.ruleId = "TocDrift") := by
  have hnil : ∀ (sub sup : List String), (∀ a ∈ sub, a ∈ sup) →
      (sub.filter fun i => decide (i ∉ sup)) = [] :=
    fun sub sup h => filter_not_mem_eq_nil id sub sup h
  refine ⟨?_, ?_, ?_, ?_⟩
  · intro ids
    unfold tocDriftFindings
    rw [hnil ids ids fun a ha => ha]
    rfl
  · intro l₁ l₂ x hx
    unfold tocDriftFindings
    rw [List.filter_append, hnil l₁ (l₁ ++ l₂) (fun a ha => by simp [ha])]
    rw [List.filter_cons, if_pos (by simpa using hx)]
    rw [hnil l₂ (l₁ ++ l₂) (fun a ha => by simp [ha])]
    rw [hnil (l₁ ++ l₂) (l₁ ++ x :: l₂) (fun a ha => by
      rcases List.mem_append.mp ha with h | h
      · exact List.mem_append.mpr (Or.inl h)
      · exact List.mem_append.mpr (Or.inr (List.mem_cons_of_mem _ h)))]
    rfl
  · intro l₁ l₂ x hx
    unfold tocDriftFindings
    rw [hnil (l₁ ++ l₂) (l₁ ++ x :: l₂) (fun a ha => by
      rcases List.mem_append.mp ha with h | h
      · exact List.mem_append.mpr (Or.inl h)
      · exact List.mem_append.mpr (Or.inr (List.mem_cons_of_mem _ h)))]
    rw [List.filter_append, hnil l₁ (l₁ ++ l₂) (fun a ha => by simp [ha])]
    rw [List.filter_cons, if_pos (by simpa using hx)]
    rw [hnil l₂ (l₁ ++ l₂) (fun a ha => by simp [ha])]
    rfl
  · intro toc sids f hf
    unfold tocDriftFindings at hf
    rcases List.mem_append.mp hf with h | h <;>
      · obtain ⟨i, _, rfl⟩ := List.mem_map.mp h
        exact ⟨rfl, rfl⟩

/-- Witness for C3 at a concrete corpus: a TOC with the extra identifier
`ch2` produces exactly the one finding naming it as missing from the
summary table. -/
theorem tocSummarySync_witness :
    tocDriftFindings ["ch1", "ch2"] ["ch1"] = [mkTocDrift "ch2" "summary table"] :=
  tocSummarySync.2.1 ["ch1"] [] "ch2" (by decide)

/-- C4: the Naming Sequence pass accepts exactly the contiguous ordinal
sequences starting at the group's origin (gap- and duplicate-free), every
finding it emits is an Error-severity `SequenceGap` naming expected versus
found ordinal; chapters 1,2,3,5 yield exactly one finding for missing
ordinal 4, and appendices A,B,D yield exactly one for missing ordinal
C. -/
theorem sequenceGapFindings_cons_hit (render : Nat → String) (group : String)
    (e : Nat) (rest : List Nat) :
    sequenceGapFindings render group e (e :: rest)
      = sequenceGapFindings render group (e + 1) rest := by
  simp [sequenceGapFindings]

theorem sequenceGapFindings_cons_miss (render : Nat → String) (group : String)
    {e found : Nat} (rest : List Nat) (h : found ≠ e) :
    sequenceGapFindings render group e (found :: rest)
      = mkSequenceGap render group e found
        :: sequenceGapFindings render group (found + 1) rest := by
  simp [sequenceGapFindings, h]

theorem namingSequence :
    (∀ (render : Nat → String) (group : String) (e : Nat) (ords : List Nat),
        sequenceGapFindings render group e ords = [] ↔ ords = List.range' e ords.length)
    ∧ (∀ render group e ords, ∀ f ∈ sequenceGapFindings render group e ords,
        f.severity = .error ∧ f.ruleId = "SequenceGap")
    ∧ chapterPass [1, 2, 3, 5] = [mkSequenceGap natOrd "chapters" 4 5]
    ∧ appendixPass [1, 2, 4] = [mkSequenceGap letterOrd "appendices" 3 4] := by
  refine ⟨?_, ?_, by decide, by decide⟩
  · intro render group e ords
    induction ords generalizing e with
    | nil => simp [sequenceGapFindings]
    | cons found rest ih =>
      by_cases hf : found = e
      · subst hf
        rw [sequenceGapFindings_cons_hit, List.length_cons, List.range'_succ]
        rw [ih (found + 1)]
        simp
      · rw [sequenceGapFindings_cons_miss render group rest hf,
          List.length_cons, List.range'_succ]
        simp [hf]
  · intro render group e ords
    induction ords generalizing e with
    | nil => simp [sequenceGapFindings]
    | cons found rest ih =>
      intro f hf
      by_cases h : found = e
      · subst h
        rw [sequenceGapFindings_cons_hit] at hf
        exact ih (found + 1) f hf
      · rw [sequenceGapFindings_cons_miss render group rest h] at hf
        rcases List.mem_cons.mp hf with rfl | hmem
        · exact ⟨rfl, rfl⟩
        · exact ih (found + 1) f hmem

/-- Witness for C4 at a concrete group: the finding produced for chapters
1,2 run from origin 4 is an Error-severity `SequenceGap`. -/
theorem namingSequence_witness :
    (mkSequenceGap natOrd "chapters" 4 5).severity = .error
    ∧ (mkSequenceGap natOrd "chapters" 4 5).ruleId = "SequenceGap" :=
  namingSequence.2.1 natOrd "chapters" 1 [1, 2, 3, 5] _ (by decide)

/-- C6: a relative reference whose target is present in the asset index
produces no `MissingReference` finding, and when the target of a uniquely
referencing document is absent the pass produces exactly one
Error-severity `MissingReference` finding naming the missing target and
the referencing document. -/
theorem referenceExistence :
    (∀ (paths : List String) (refs : List Ref) (r : Ref), r.target ∈ paths →
        mkMissingRef r ∉ missingRefFindings paths refs)
    ∧ (∀ (paths : List String) (l₁ l₂ : List Ref) (r : Ref), r.target ∉ paths →
        (∀ s ∈ l₁ ++ l₂, s.target ∈ paths) →
        missingRefFindings paths (l₁ ++ r :: l₂) = [mkMissingRef r])
    ∧ (∀ paths refs f, f ∈ missingRefFindings paths refs →
        f.severity = .error ∧ f.ruleId = "MissingReference") := by
  refine ⟨?_, ?_, ?_⟩
  · intro paths refs r hr hmem
    unfold missingRefFindings at hmem
    obtain ⟨r', hr', heq⟩ := List.mem_map.mp hmem
    obtain ⟨-, hdec⟩ := List.mem_filter.mp hr'
    have hnot : r'.target ∉ paths := of_decide_eq_true hdec
    have hmsg : "missing target " ++ r'.target = "missing target " ++ r.target := by
      have := congrArg Finding.message heq
      simpa [mkMissingRef] using this
    have : r'.target = r.target := str_append_cancel_left _ hmsg
    exact hnot (this ▸ hr)
  · intro paths l₁ l₂ r hr hrest
    unfold missingRefFindings
    rw [List.filter_append,
      filter_not_mem_eq_nil Ref.target l₁ paths (fun s hs => hrest s (by simp [hs]))]
    rw [List.filter_cons, if_pos (by simpa using hr)]
    rw [filter_not_mem_eq_nil Ref.target l₂ paths (fun s hs => hrest s (by simp [hs]))]
    rfl
  · intro paths refs f hf
    unfold missingRefFindings at hf
    obtain ⟨r', _, rfl⟩ := List.mem_map.mp hf
    exact ⟨rfl, rfl⟩

/-- Witness for C6 at a concrete corpus: with `a.json` present the
reference to it yields no finding, and with only `m.json` referenced and
absent the pass yields exactly the one finding for it. -/
theorem referenceExistence_witness :
    (mkMissingRef ⟨"d", 1, "a.json"⟩ ∉ missingRefFindings ["a.json"] [⟨"d", 1, "a.json"⟩])
    ∧ missingRefFindings ["a.json"] [⟨"d", 2, "m.json"⟩] = [mkMissingRef ⟨"d", 2, "m.json"⟩] :=
  ⟨referenceExistence.1 ["a.json"] [⟨"d", 1, "a.json"⟩] ⟨"d", 1, "a.json"⟩ (by decide),
    referenceExistence.2.1 ["a.json"] [] [] ⟨"d", 2, "m.json"⟩ (by decide) (by decide)⟩

/-- C8: the Sticky-Note/Anchor Validation pass accepts an asset exactly
when the documentation-link URL matches the publish-domain pattern and any
anchor fragment on it equals a heading slug (lower-cased, spaces replaced
by hyphens) of the referenced document; every mismatch yields an
Error-severity `BrokenAnchor` finding. -/
theorem stickyNoteAnchors :
    (∀ (pd : String) (hs : List String) (sn : StickyNote),
        anchorFindings pd hs sn = [] ↔
          (pd.data.isPrefixOf sn.url.data = true
            ∧ ∀ frag, fragmentOf sn.url = some frag → frag ∈ hs.map slugify))
    ∧ (∀ pd hs sn, ∀ f ∈ anchorFindings pd hs sn,
        f.severity = .error ∧ f.ruleId = "BrokenAnchor") := by
  constructor
  · intro pd hs sn
    unfold anchorFindings
    by_cases hpre : pd.data.isPrefixOf sn.url.data
    · rw [if_pos hpre]
      cases hfrag : fragmentOf sn.url with
      | none => simp [hpre, hfrag]
      | some frag =>
        by_cases hmem : frag ∈ hs.map slugify
        · simp only [hfrag]
          rw [if_pos hmem]
          exact iff_of_true rfl ⟨hpre, fun frag' h' => (Option.some.inj h') ▸ hmem⟩
        · simp only [hfrag]
          rw [if_neg hmem]
          constructor
          · intro h; exact absurd h (by simp)
          · rintro ⟨-, hall⟩
            exact absurd (hall frag rfl) hmem
    · rw [if_neg hpre]
      constructor
      · intro h; exact absurd h (by simp)
      · rintro ⟨hp, -⟩
        exact absurd hp (by simpa using hpre)
  · intro pd hs sn f hf
    unfold anchorFindings at hf
    split at hf
    · split at hf
      · cases hf
      · split at hf
        · cases hf
        · rcases List.mem_singleton.mp hf with rfl
          exact ⟨rfl, rfl⟩
    · rcases List.mem_singleton.mp hf with rfl
      exact ⟨rfl, rfl⟩

/-- Witness for C8 at concrete inputs: a publish-domain URL whose anchor
fragment is the slug of an existing heading passes, and a URL outside the
publish domain yields the Error-severity `BrokenAnchor` finding. -/
theorem stickyNoteAnchors_witness :
    (anchorFindings "https://e.io/" ["Pattern 1"]
        ⟨"wf.json", "https://e.io/p.html#pattern-1", "doc"⟩ = [])
    ∧ ((mkBadDomain ⟨"wf.json", "https://x.io/", "doc"⟩).severity = .error
        ∧ (mkBadDomain ⟨"wf.json", "https://x.io/", "doc"⟩).ruleId = "BrokenAnchor") :=
  ⟨(stickyNoteAnchors.1 "https://e.io/" ["Pattern 1"]
        ⟨"wf.json", "https://e.io/p.html#pattern-1", "doc"⟩).mpr
      ⟨by decide, fun frag h => (Option.some.inj h) ▸ (by decide)⟩,
    stickyNoteAnchors.2 "https://e.io/" [] ⟨"wf.json", "https://x.io/", "doc"⟩ _ (by decide)⟩

/-- C1: the Driver exits 2 exactly when the corpus failed to load at all,
exits 0 when the aggregated findings contain no Error (whatever the
Warning and Info counts), and exits 1 when they contain at least one
Error; Warning findings alone never produce a non-zero status. -/
theorem driverExitCodes :
    (∀ r : Option Corpus, exitCode r = 2 ↔ r = none)
    ∧ (∀ c : Corpus, errorCount (report c) = 0 → exitCode (some c) = 0)
    ∧ (∀ c : Corpus, 0 < errorCount (report c) → exitCode (some c) = 1) := by
  refine ⟨?_, ?_, ?_⟩
  · intro r
    cases r with
    | none => simp [exitCode]
    | some c =>
      by_cases h : 0 < errorCount (report c) <;> simp [exitCode, h]
  · intro c h
    simp [exitCode, h]
  · intro c h
    simp [exitCode, h]

/-- Witness for C1 at concrete corpora: the empty corpus (no findings at
all) exits 0 and a corpus with one load error exits 1. -/
theorem driverExitCodes_witness :
    exitCode (some ⟨[], [], [], [], [], [], [], [], "", [], []⟩) = 0
    ∧ exitCode (some ⟨[], [], [], [], [], [], [], [], "", [], ["bad.json"]⟩) = 1 :=
  ⟨driverExitCodes.2.1 _ (by decide), driverExitCodes.2.2 _ (by decide)⟩

/-- C2: the Corpus Loader records every malformed file as a load error,
keeps every well-formed file in the index, admits only well-formed files
into the index, and the final report carries one Error-severity `LoadError`
line per load error — the run is a total function of the file list, so no
validation pass can crash on the partial corpus.  -/
theorem loaderPartialCorpus :
    (∀ (files : List RawFile) (f : RawFile), f ∈ files → f.wellFormed = false →
        f.name ∈ loadErrorsOf files)
    ∧ (∀ (files : List RawFile) (f : RawFile), f ∈ files → f.wellFormed = true →
        f.name ∈ loadedPaths files)
    ∧ (∀ (files : List RawFile) (n : String), n ∈ loadedPaths files →
        ∃ f ∈ files, f.wellFormed = true ∧ f.name = n)
    ∧ (∀ files refs toc sids ch ap pr pps pd sns, ∀ e ∈ loadErrorsOf files,
        mkLoadError e ∈ report (loadCorpus files refs toc sids ch ap pr pps pd sns)
          ∧ (mkLoadError e).severity = .error) := by
  refine ⟨?_, ?_, ?_, ?_⟩
  · intro files f hf hbad
    exact List.mem_map_of_mem _ (List.mem_filter.mpr ⟨hf, by simp [hbad]⟩)
  · intro files f hf hgood
    exact List.mem_map_of_mem _ (List.mem_filter.mpr ⟨hf, by simp [hgood]⟩)
  · intro files n hn
    obtain ⟨f, hf, rfl⟩ := List.mem_map.mp hn
    obtain ⟨hmem, hwf⟩ := List.mem_filter.mp hf
    exact ⟨f, hmem, by simpa using hwf, rfl⟩
  · intro files refs toc sids ch ap pr pps pd sns e he
    refine ⟨mem_aggregate.mpr ?_, rfl⟩
    unfold runPasses loadCorpus
    refine List.mem_append.mpr (Or.inr ?_)
    exact List.mem_map_of_mem _ he

/-- Witness for C2 at a concrete file list: the malformed `bad.json` is
recorded and its Error line is in the final report while `good.json`
loads. -/
theorem loaderPartialCorpus_witness :
    mkLoadError "bad.json"
        ∈ report (loadCorpus [⟨"good.json", true⟩, ⟨"bad.json", false⟩]
            [] [] [] [] [] [] [] "" [])
      ∧ (mkLoadError "bad.json").severity = .error :=
  loaderPartialCorpus.2.2.2 [⟨"good.json", true⟩, ⟨"bad.json", false⟩]
    [] [] [] [] [] [] [] "" [] "bad.json" (by decide)

/-- C7: the report is a deterministic function of the findings — the
aggregator is invariant under permutation of the merged pass outputs, its
output is sorted by severity, then document/asset identifier, then
position (with rule id and message as final tie-breaks), aggregating is
idempotent, and hence the rendered report is byte-identical across
runs. -/
theorem reportDeterministic :
    (∀ l l' : List Finding, l.Perm l' → aggregate l = aggregate l')
    ∧ (∀ l : List Finding, List.Sorted keyLErel (aggregate l))
    ∧ (∀ l : List Finding, aggregate (aggregate l) = aggregate l)
    ∧ (∀ l l' : List Finding, l.Perm l' → renderReport l = renderReport l') := by
  refine ⟨fun l l' h => aggregate_perm_invariant h, ?_, ?_, ?_⟩
  · intro l
    exact List.sorted_insertionSort keyLErel l.dedup
  · intro l
    have hnd : (aggregate l).Nodup :=
      (List.perm_insertionSort keyLErel l.dedup).nodup_iff.mpr (List.nodup_dedup l)
    show List.insertionSort keyLErel (aggregate l).dedup = aggregate l
    rw [List.dedup_eq_self.mpr hnd]
    exact List.eq_of_perm_of_sorted (List.perm_insertionSort keyLErel (aggregate l))
      (List.sorted_insertionSort keyLErel (aggregate l))
      (List.sorted_insertionSort keyLErel l.dedup)
  · intro l l' h
    unfold renderReport
    rw [aggregate_perm_invariant h]

/-- Witness for C7 at two concrete permuted finding lists. -/
theorem reportDeterministic_witness :
    aggregate [mkLoadError "a", mkLoadError "b"]
      = aggregate [mkLoadError "b", mkLoadError "a"] :=
  reportDeterministic.1 _ _ (by decide)

/-- C9: initialization of the download enhancements is idempotent — a
second run of the force-download script is a no-op because of the
`window._forceDownloadInitialized` guard, and a second call of
`addDownloadOptions` never appends a second pair of `.html`/`.md` entries
because it returns early once a `.download-html-btn` entry exists. -/
theorem forceDownloadIdempotent :
    (∀ s : PageState,
        runForceDownloadScript (runForceDownloadScript s) = runForceDownloadScript s)
    ∧ (∀ s : PageState, s.forceDownloadInitialized = true →
        runForceDownloadScript s = s)
    ∧ (∀ d : Option (List MenuItem),
        addDownloadOptions (addDownloadOptions d) = addDownloadOptions d) := by
  have hadd : ∀ d : Option (List MenuItem),
      addDownloadOptions (addDownloadOptions d) = addDownloadOptions d := by
    intro d
    cases d with
    | none => rfl
    | some items =>
      by_cases h : hasHtmlBtn items
      · simp [addDownloadOptions, h]
      · have hnew : hasHtmlBtn (items ++ [downloadHtmlBtn, downloadMdBtn]) = true := by
          unfold hasHtmlBtn
          rw [List.any_append]
          simp [downloadHtmlBtn]
        simp [addDownloadOptions, h, hnew]
  refine ⟨?_, ?_, hadd⟩
  · intro s
    by_cases h : s.forceDownloadInitialized
    · simp [runForceDownloadScript, h]
    · simp [runForceDownloadScript, h]
  · intro s h
    simp [runForceDownloadScript, h]

/-- Witness for C9 at a concrete page state: with the guard already set
the script leaves the state untouched. -/
theorem forceDownloadIdempotent_witness :
    runForceDownloadScript ⟨true, some []⟩ = ⟨true, some []⟩ :=
  forceDownloadIdempotent.2.1 ⟨true, some []⟩ rfl

/-- C10: the reading-progress computation is total — when the scrollable
height `scrollHeight - innerHeight` is not strictly positive the progress
is 0 (no division by zero, no negative value), and otherwise it is
`scrollTop / (scrollHeight - innerHeight) * 100`; it is never negative for
a non-negative scroll offset. -/
theorem updateProgressTotal :
    (∀ scrollTop scrollHeight innerHeight : ℚ, scrollHeight - innerHeight ≤ 0 →
        updateProgress scrollTop scrollHeight innerHeight = 0)
    ∧ (∀ scrollTop scrollHeight innerHeight : ℚ, 0 < scrollHeight - innerHeight →
        updateProgress scrollTop scrollHeight innerHeight
          = scrollTop / (scrollHeight - innerHeight) * 100)
    ∧ (∀ scrollTop scrollHeight innerHeight : ℚ, 0 ≤ scrollTop →
        0 ≤ updateProgress scrollTop scrollHeight innerHeight) := by
  refine ⟨?_, ?_, ?_⟩
  · intro st sh ih h
    unfold updateProgress
    rw [if_neg (not_lt.mpr h)]
  · intro st sh ih h
    unfold updateProgress
    rw [if_pos h]
  · intro st sh ih hst
    unfold updateProgress
    by_cases h : 0 < sh - ih
    · rw [if_pos h]
      have h1 : (0 : ℚ) ≤ st / (sh - ih) := div_nonneg hst (le_of_lt h)
      have h2 : (0 : ℚ) ≤ 100 := by norm_num
      exact mul_nonneg h1 h2
    · rw [if_neg h]

/-- Witness for C10 at concrete values: a page with no scrollable height
reports 0, and a scrollable page reports the ratio. -/
theorem updateProgressTotal_witness :
    updateProgress 0 0 0 = 0
    ∧ updateProgress 0 1 0 = 0 / (1 - 0) * 100
    ∧ 0 ≤ updateProgress 0 1 0 :=
  ⟨updateProgressTotal.1 0 0 0 (by simp),
    updateProgressTotal.2.1 0 1 0 (by simp),
    updateProgressTotal.2.2 0 1 0 (by simp)⟩

theorem dropWhile_isWs_eq_self {l : List Char}
    (h : ∀ c, l.head? = some c → isWs c = false) :
    l.dropWhile isWs = l := by
  cases l with
  | nil => rfl
  | cons a l =>
    rw [List.dropWhile_cons, h a rfl]
    simp

theorem trimLine_eq_self {l : List Char}
    (h1 : ∀ c, l.head? = some c → isWs c = false)
    (h2 : ∀ c, l.getLast? = some c → isWs c = false) :
    trimLine l = l := by
  unfold trimLine
  rw [dropWhile_isWs_eq_self h1]
  rw [dropWhile_isWs_eq_self (l := l.reverse) fun c hc =>
    h2 c (by rwa [List.head?_reverse] at hc)]
  exact List.reverse_reverse l

theorem renderLine_cons (w : List Char) (ws : List (List Char)) :
    renderLine (w :: ws) = w ++ sepTail ws := by
  cases ws with
  | nil => simp [renderLine, sepTail]
  | cons x xs => simp [renderLine, sepTail]

theorem sepTail_shape (ws : List (List Char)) :
    sepTail ws = [] ∨ ∃ r, sepTail ws = ' ' :: r := by
  cases ws with
  | nil => exact Or.inl rfl
  | cons x xs => exact Or.inr ⟨renderLine (x :: xs), rfl⟩

theorem renderLine_ne_nil {ws : List (List Char)} (h : GoodLine ws) (hne : ws ≠ []) :
    renderLine ws ≠ [] := by
  cases ws with
  | nil => exact absurd rfl hne
  | cons w rest =>
    rw [renderLine_cons]
    have hw : w ≠ [] := (h w (by simp)).1
    simp [hw]

theorem mem_of_getLast?_eq {l : List Char} {c : Char} (h : l.getLast? = some c) :
    c ∈ l := by
  have hm : c ∈ l.getLast? := Option.mem_def.mpr h
  obtain ⟨hne, heq⟩ := List.mem_getLast?_eq_getLast hm
  rw [heq]
  exact List.getLast_mem hne

theorem renderLine_head {ws : List (List Char)} (h : GoodLine ws) :
    ∀ c, (renderLine ws).head? = some c → isWs c = false := by
  cases ws with
  | nil => intro c hc; simp [renderLine] at hc
  | cons w rest =>
    intro c hc
    obtain ⟨hw, hwf⟩ := h w (by simp)
    rw [renderLine_cons] at hc
    cases w with
    | nil => exact absurd rfl hw
    | cons a w' =>
      rw [List.cons_append, List.head?_cons] at hc
      have ha : a = c := by simpa using hc
      subst ha
      exact hwf a (by simp)

theorem renderLine_getLast {ws : List (List Char)} (h : GoodLine ws) :
    ∀ c, (renderLine ws).getLast? = some c → isWs c = false := by
  induction ws with
  | nil => intro c hc; simp [renderLine] at hc
  | cons w rest ih =>
    intro c hc
    cases rest with
    | nil =>
      have hw := h w (by simp)
      simp only [renderLine] at hc
      exact hw.2 c (mem_of_getLast?_eq hc)
    | cons x xs =>
      have hrest : GoodLine (x :: xs) := fun u hu => h u (by simp [hu])
      rw [show renderLine (w :: x :: xs) = w ++ ' ' :: renderLine (x :: xs) from rfl,
        List.getLast?_append_cons] at hc
      have hR : renderLine (x :: xs) ≠ [] := renderLine_ne_nil hrest (by simp)
      rw [show (' ' :: renderLine (x :: xs)) = [' '] ++ renderLine (x :: xs) from rfl,
        List.getLast?_append_of_ne_nil _ hR] at hc
      exact ih hrest c hc

theorem append_wsfree_inj :
    ∀ (w w' t t' : List Char),
      (∀ c ∈ w, isWs c = false) → (∀ c ∈ w', isWs c = false) →
      (t = [] ∨ ∃ r, t = ' ' :: r) → (t' = [] ∨ ∃ r, t' = ' ' :: r) →
      w ++ t = w' ++ t' → w = w' ∧ t = t' := by
  intro w
  induction w with
  | nil =>
    intro w' t t' _ hw' ht _ heq
    cases w' with
    | nil => exact ⟨rfl, heq⟩
    | cons a' ws' =>
      exfalso
      simp only [List.nil_append, List.cons_append] at heq
      rcases ht with rfl | ⟨r, rfl⟩
      · exact List.noConfusion heq
      · injection heq with h1 _
        have := hw' a' (by simp)
        rw [← h1] at this
        simp [isWs] at this
  | cons a wtl ih =>
    intro w' t t' hw hw' ht ht' heq
    cases w' with
    | nil =>
      exfalso
      simp only [List.cons_append, List.nil_append] at heq
      rcases ht' with rfl | ⟨r, rfl⟩
      · exact List.noConfusion heq
      · injection heq with h1 _
        have := hw a (by simp)
        rw [h1] at this
        simp [isWs] at this
    | cons a' wtl' =>
      simp only [List.cons_append] at heq
      injection heq with h1 h2
      subst h1
      obtain ⟨hww, htt⟩ := ih wtl' t t' (fun c hc => hw c (by simp [hc]))
        (fun c hc => hw' c (by simp [hc])) ht ht' h2
      exact ⟨by rw [hww], htt⟩

theorem renderLine_injOn :
    ∀ ws ws', GoodLine ws → GoodLine ws' → renderLine ws = renderLine ws' → ws = ws' := by
  intro ws
  induction ws with
  | nil =>
    intro ws' _ hg' h
    cases ws' with
    | nil => rfl
    | cons w rest => exact absurd h.symm (renderLine_ne_nil hg' (by simp))
  | cons w rest ih =>
    intro ws' hg hg' h
    cases ws' with
    | nil => exact absurd h (renderLine_ne_nil hg (by simp))
    | cons w' rest' =>
      rw [renderLine_cons, renderLine_cons] at h
      obtain ⟨hww, htt⟩ := append_wsfree_inj w w' (sepTail rest) (sepTail rest')
        (hg w (by simp)).2 (hg' w' (by simp)).2
        (sepTail_shape rest) (sepTail_shape rest') h
      subst hww
      cases rest with
      | nil =>
        cases rest' with
        | nil => rfl
        | cons y ys => simp [sepTail] at htt
      | cons x xs =>
        cases rest' with
        | nil => simp [sepTail] at htt
        | cons y ys =>
          simp only [sepTail, List.cons.injEq, true_and] at htt
          rw [ih (y :: ys) (fun u hu => hg u (by simp [hu]))
            (fun u hu => hg' u (by simp [hu])) htt]

theorem goodLine_append_cons {pw sw : List (List Char)} {u : List Char}
    (hpw : ∀ w ∈ pw, GoodWord w) (hsw : ∀ w ∈ sw, GoodWord w) (hu : GoodWord u) :
    GoodLine (pw ++ u :: sw) := by
  intro w hw
  rcases List.mem_append.mp hw with h | h
  · exact hpw w h
  · rcases List.mem_cons.mp h with rfl | h
    · exact hu
    · exact hsw w h

theorem normalize_single_changed_word_ne
    (lw₁ lw₂ : List (List (List Char))) (pw sw : List (List Char)) (u v : List Char)
    (hpw : ∀ w ∈ pw, GoodWord w) (hsw : ∀ w ∈ sw, GoodWord w)
    (hu : GoodWord u) (hv : GoodWord v) (huv : u ≠ v) :
    normalizeLines ((lw₁ ++ (pw ++ u :: sw) :: lw₂).map renderLine)
      ≠ normalizeLines ((lw₁ ++ (pw ++ v :: sw) :: lw₂).map renderLine) := by
  intro h
  unfold normalizeLines at h
  rw [List.map_map, List.map_map, List.map_append, List.map_append,
    List.map_cons, List.map_cons] at h
  have h2 : (trimLine ∘ renderLine) (pw ++ u :: sw)
      = (trimLine ∘ renderLine) (pw ++ v :: sw) :=
    (List.cons.injEq .. ▸ List.append_cancel_left h).1
  have hgu : GoodLine (pw ++ u :: sw) := goodLine_append_cons hpw hsw hu
  have hgv : GoodLine (pw ++ v :: sw) := goodLine_append_cons hpw hsw hv
  have h3 : renderLine (pw ++ u :: sw) = renderLine (pw ++ v :: sw) := by
    have e1 : trimLine (renderLine (pw ++ u :: sw)) = renderLine (pw ++ u :: sw) :=
      trimLine_eq_self (renderLine_head hgu) (renderLine_getLast hgu)
    have e2 : trimLine (renderLine (pw ++ v :: sw)) = renderLine (pw ++ v :: sw) :=
      trimLine_eq_self (renderLine_head hgv) (renderLine_getLast hgv)
    have h2' : trimLine (renderLine (pw ++ u :: sw))
        = trimLine (renderLine (pw ++ v :: sw)) := h2
    rw [e1, e2] at h2'
    exact h2'
  have h4 := renderLine_injOn _ _ hgu hgv h3
  have h5 := List.append_cancel_left h4
  exact huv (List.cons.injEq .. ▸ h5).1

/-- C5: the Prompt Consistency pass compares a documented-prompt block
with the referenced asset parameter verbatim after whitespace
normalization at line boundaries only — a match produces no `PromptDrift`
finding, a single changed word produces exactly one `PromptDrift` finding,
and every finding of the pass is Warning severity (never Error) and
references both locations (the documenting block in its fields, the asset
in its message). -/
theorem promptConsistency :
    (∀ p : PromptPair, normalizeLines p.blockText = normalizeLines p.assetText →
        promptPairFindings p = [])
    ∧ (∀ (d a : String) (pos : Nat) (lw₁ lw₂ : List (List (List Char)))
        (pw sw : List (List Char)) (u v : List Char),
        (∀ w ∈ pw, GoodWord w) → (∀ w ∈ sw, GoodWord w) →
        GoodWord u → GoodWord v → u ≠ v →
        promptPairFindings
            ⟨d, pos, a, (lw₁ ++ (pw ++ u :: sw) :: lw₂).map renderLine,
              (lw₁ ++ (pw ++ v :: sw) :: lw₂).map renderLine⟩
          = [mkPromptDrift
              ⟨d, pos, a, (lw₁ ++ (pw ++ u :: sw) :: lw₂).map renderLine,
                (lw₁ ++ (pw ++ v :: sw) :: lw₂).map renderLine⟩])
    ∧ (∀ p : PromptPair, ∀ f ∈ promptPairFindings p,
        f.severity = .warning ∧ f.ruleId = "PromptDrift") := by
  refine ⟨?_, ?_, ?_⟩
  · intro p h
    unfold promptPairFindings
    rw [if_pos h]
  · intro d a pos lw₁ lw₂ pw sw u v hpw hsw hu hv huv
    unfold promptPairFindings
    rw [if_neg (normalize_single_changed_word_ne lw₁ lw₂ pw sw u v hpw hsw hu hv huv)]
  · intro p f hf
    unfold promptPairFindings at hf
    split at hf
    · cases hf
    · rcases List.mem_singleton.mp hf with rfl
      exact ⟨rfl, rfl⟩

/-- Witness for C5 at a concrete pair: the one-line prompts `a` and `b`
differ in their single word, so the pass yields exactly the one Warning
finding. -/
theorem promptConsistency_witness :
    promptPairFindings ⟨"doc", 0, "wf.json", [['a']], [['b']]⟩
      = [mkPromptDrift ⟨"doc", 0, "wf.json", [['a']], [['b']]⟩] :=
  promptConsistency.2.1 "doc" "wf.json" 0 [] [] [] [] ['a'] ['b']
    (fun w hw => absurd hw (List.not_mem_nil w))
    (fun w hw => absurd hw (List.not_mem_nil w))
    ⟨by decide, by decide⟩ ⟨by decide, by decide⟩ (by decide)

end CourseVerifier
